import Mathlib

/-!
Verification development for the Hyperledger Fabric asset-transfer chaincode
(`src/fabric/assetTransfer.js`).

The chaincode is shallowly embedded as pure Lean functions:
* JavaScript/JSON values become the inductive type `JVal`;
* the world state (an ordered key-value store accessed through
  `ctx.stub.getState` / `putState` / `deleteState` / `getStateByRange`)
  becomes a key-sorted association list `Store`;
* `json-stringify-deterministic` becomes `stringify` (serialization with
  recursively sorted keys), `sort-keys-recursive` becomes `sortKeysRecursive`,
  and plain `JSON.stringify` becomes `serializeJson`;
* `JSON.parse` becomes the executable parser `jsonParse`, returning `none`
  where the JavaScript builtin would throw;
* each contract method becomes a function from the store (and its string
  arguments) to the new store and an `Except` result, `Except.error`
  modelling a thrown `Error`.
-/

/-- A JavaScript value as manipulated by the chaincode: JSON strings, numbers
(the chaincode only ever handles integral numbers; the JavaScript `NaN`
produced by `Number` on a non-numeric string is `jnan`), booleans, `null`,
arrays and objects (association lists of field name to value, in insertion
order, as in a JavaScript object literal). -/
inductive JVal where
  | jstr (s : String) : JVal
  | jnum (n : Int) : JVal
  | jnan : JVal
  | jbool (b : Bool) : JVal
  | jnull : JVal
  | jarr (xs : List JVal) : JVal
  | jobj (fs : List (String × JVal)) : JVal
deriving Repr

/-! ### String ordering

JavaScript's default sort order on keys is code-unit order.  We model it with
an executable comparison on the characters of the strings. -/

/-- Strict lexicographic order on character lists, by code point. -/
def listLtB : List Char → List Char → Bool
  | [], [] => false
  | [], _ :: _ => true
  | _ :: _, [] => false
  | a :: as, b :: bs => if a = b then listLtB as bs else decide (a < b)

/-- Strict lexicographic order on strings (JavaScript `<` on strings). -/
def strLtB (a b : String) : Bool := listLtB a.toList b.toList

/-- Non-strict order on strings, as used by a comparison sort. -/
def strLeB (a b : String) : Bool := !(strLtB b a)

/-! ### Canonical key sorting (`sort-keys-recursive`) -/

/-- Insert one field into a list of fields sorted by key. -/
def insertByKey (e : String × JVal) : List (String × JVal) → List (String × JVal)
  | [] => [e]
  | f :: fs => if strLeB e.1 f.1 then e :: f :: fs else f :: insertByKey e fs

/-- Sort a list of fields by key (stable comparison sort on the field name,
as JavaScript's `Array.prototype.sort` with the default string comparison). -/
def keySort : List (String × JVal) → List (String × JVal)
  | [] => []
  | f :: fs => insertByKey f (keySort fs)

mutual
/-- Model of the `sort-keys-recursive` library: recursively sort the keys of
every object, at every nesting level, into ascending code-unit order.  Array
element order and all values are preserved. -/
def sortKeysRecursive : JVal → JVal
  | .jobj fs => .jobj (keySort (sortFields fs))
  | .jarr xs => .jarr (sortArr xs)
  | .jstr s => .jstr s
  | .jnum n => .jnum n
  | .jnan => .jnan
  | .jbool b => .jbool b
  | .jnull => .jnull

/-- Apply `sortKeysRecursive` to every value of a field list. -/
def sortFields : List (String × JVal) → List (String × JVal)
  | [] => []
  | (k, v) :: fs => (k, sortKeysRecursive v) :: sortFields fs

/-- Apply `sortKeysRecursive` to every element of an array. -/
def sortArr : List JVal → List JVal
  | [] => []
  | x :: xs => sortKeysRecursive x :: sortArr xs
end

/-! ### Serialization (`JSON.stringify` and `json-stringify-deterministic`) -/

/-- Four-digit lowercase hexadecimal, for `\uXXXX` escapes. -/
def hex4 (n : Nat) : String :=
  let d := fun (m : Nat) => String.singleton (Nat.digitChar (m % 16))
  d (n / 4096) ++ d (n / 256) ++ d (n / 16) ++ d n

/-- JSON escaping of a single character, as `JSON.stringify` performs it. -/
def escapeChar (c : Char) : String :=
  if c = '"' then "\\\""
  else if c = '\\' then "\\\\"
  else if c = '\n' then "\\n"
  else if c = '\r' then "\\r"
  else if c = '\t' then "\\t"
  else if c = '\x08' then "\\b"
  else if c = '\x0c' then "\\f"
  else if decide (c.toNat < 32) then "\\u" ++ hex4 c.toNat
  else String.singleton c

/-- A JSON string literal: quoted and escaped. -/
def jsonQuote (s : String) : String :=
  "\"" ++ String.join (s.toList.map escapeChar) ++ "\""

mutual
/-- Model of plain `JSON.stringify` (no indentation argument): compact
serialization preserving the insertion order of object fields.
`JSON.stringify(NaN)` yields `null`. -/
def serializeJson : JVal → String
  | .jstr s => jsonQuote s
  | .jnum n => toString n
  | .jnan => "null"
  | .jbool b => cond b "true" "false"
  | .jnull => "null"
  | .jarr xs => "[" ++ serializeArr xs ++ "]"
  | .jobj fs => "\x7b" ++ serializeFields fs ++ "\x7d"

/-- Comma-separated serialization of array elements. -/
def serializeArr : List JVal → String
  | [] => ""
  | [x] => serializeJson x
  | x :: y :: xs => serializeJson x ++ "," ++ serializeArr (y :: xs)

/-- Comma-separated serialization of object members. -/
def serializeFields : List (String × JVal) → String
  | [] => ""
  | [(k, v)] => jsonQuote k ++ ":" ++ serializeJson v
  | (k, v) :: f :: fs => jsonQuote k ++ ":" ++ serializeJson v ++ "," ++ serializeFields (f :: fs)
end

/-- Model of the `json-stringify-deterministic` library: like `JSON.stringify`
but with object keys serialized in sorted order at every nesting level, so
that equal mappings always produce identical byte sequences. -/
def stringify (v : JVal) : String := serializeJson (sortKeysRecursive v)

/-- The byte sequence the chaincode writes for a record `v`:
`Buffer.from(stringify(sortKeysRecursive(v)))`, as on every write path of the
source.  (Bytes are modelled as the UTF-8 string that produced them.) -/
def encode (v : JVal) : String := stringify (sortKeysRecursive v)

/-! ### The world state (`ctx.stub`)

The world state is an ordered key-value store; `getStateByRange('', '')`
yields all entries in ascending lexicographic key order.  We model it as an
association list kept sorted by key, which is exactly the order the range
scan delivers. -/

/-- The world state: an association list from key to stored text value, kept
in ascending key order by `putState`. -/
abbrev Store := List (String × String)

/-- `ctx.stub.getState(k)`: the stored value, or `none` when absent. -/
def getState : Store → String → Option String
  | [], _ => none
  | (k', v) :: st, k => if k = k' then some v else getState st k

/-- `ctx.stub.putState(k, v)`: overwrite any existing value for `k`,
keeping the store sorted by key. -/
def putState : Store → String → String → Store
  | [], k, v => [(k, v)]
  | (k', v') :: st, k, v =>
    if strLtB k k' then (k, v) :: (k', v') :: st
    else if k = k' then (k, v) :: st
    else (k', v') :: putState st k v

/-- `ctx.stub.deleteState(k)`: remove the key from the store. -/
def deleteState : Store → String → Store
  | [], _ => []
  | (k', v) :: st, k => if k = k' then st else (k', v) :: deleteState st k

/-! ### Field access on parsed objects (JavaScript property read/write) -/

/-- JavaScript property read `obj[k]` on an object's field list: the value of
the first field named `k` (JavaScript objects hold each key once), or `none`
for `undefined`. -/
def lookupField : List (String × JVal) → String → Option JVal
  | [], _ => none
  | (k', v) :: fs, k => if k = k' then some v else lookupField fs k

/-- JavaScript property write `obj[k] = v`: replace the value of an existing
field in place, or append a new field at the end. -/
def setField : List (String × JVal) → String → JVal → List (String × JVal)
  | [], k, v => [(k, v)]
  | (k', v') :: fs, k, v =>
    if k = k' then (k, v) :: fs else (k', v') :: setField fs k v

/-! ### `Number` coercion -/

/-- JavaScript whitespace stripped by `Number`. -/
def isJsWs (c : Char) : Bool :=
  c = ' ' || c = '\t' || c = '\n' || c = '\r' || c = '\x0c' || c = '\x0b'

/-- Digits of a decimal numeral, most significant first. -/
def digitsToNat : List Char → Option Nat
  | [] => none
  | cs => cs.foldl (fun acc c =>
      match acc with
      | none => none
      | some n => if c.isDigit then some (n * 10 + (c.toNat - 48)) else none)
      (some 0)

/-- Model of the JavaScript `Number` coercion on the integral strings the
chaincode receives: surrounding whitespace is ignored, the empty string is
`0`, an optionally signed decimal numeral is its value, and any other string
is `NaN` (`jnan`).  (Fractional, exponent and hexadecimal forms, which the
chaincode never receives, are mapped to `NaN` as well.) -/
def jsNumber (s : String) : JVal :=
  match ((s.toList.dropWhile isJsWs).reverse.dropWhile isJsWs).reverse with
  | [] => .jnum 0
  | '-' :: ds =>
    match digitsToNat ds with
    | some n => .jnum (-(n : Int))
    | none => .jnan
  | '+' :: ds =>
    match digitsToNat ds with
    | some n => .jnum (n : Int)
    | none => .jnan
  | ds =>
    match digitsToNat ds with
    | some n => .jnum (n : Int)
    | none => .jnan

/-- `true` exactly for JavaScript values of type `number` (including `NaN`). -/
def JVal.isNumberType : JVal → Bool
  | .jnum _ => true
  | .jnan => true
  | _ => false

/-! ### Parsing (`JSON.parse`)

`JSON.parse` is modelled by an executable recursive-descent parser over the
characters of the input, restricted to the fragment the chaincode ever
stores: strings (with the simple escapes produced by `jsonQuote`), integral
numbers, booleans, `null`, arrays and objects.  `none` models a thrown
`SyntaxError`. -/

/-- Skip JSON whitespace. -/
def skipWs : List Char → List Char
  | [] => []
  | c :: cs => if c = ' ' || c = '\t' || c = '\n' || c = '\r' then skipWs cs else c :: cs

/-- Parse the body of a JSON string literal, after the opening quote, up to
and including the closing quote; returns the decoded string and the rest. -/
def parseStringBody : List Char → Option (String × List Char)
  | [] => none
  | '"' :: cs => some ("", cs)
  | '\\' :: e :: cs =>
    let c? : Option Char :=
      if e = '"' then some '"'
      else if e = '\\' then some '\\'
      else if e = '/' then some '/'
      else if e = 'n' then some '\n'
      else if e = 't' then some '\t'
      else if e = 'r' then some '\r'
      else if e = 'b' then some '\x08'
      else if e = 'f' then some '\x0c'
      else none
    match c? with
    | none => none
    | some c => (parseStringBody cs).map (fun (s, r) => (String.singleton c ++ s, r))
  | c :: cs => (parseStringBody cs).map (fun (s, r) => (String.singleton c ++ s, r))

/-- Parse a JSON number at the head of the input.  Only integral numerals are
recognized; fractional or exponent forms are rejected by this model. -/
def parseNumber (cs : List Char) : Option (JVal × List Char) :=
  let signed := match cs with
    | '-' :: rest => (true, rest)
    | _ => (false, cs)
  let ds := signed.2.takeWhile Char.isDigit
  let rest := signed.2.dropWhile Char.isDigit
  if ds.isEmpty then none
  else if decide (1 < ds.length) && ds.headD '0' = '0' then none
  else match rest with
    | '.' :: _ => none
    | 'e' :: _ => none
    | 'E' :: _ => none
    | _ =>
      match digitsToNat ds with
      | some n => some (.jnum (if signed.1 then -(n : Int) else (n : Int)), rest)
      | none => none

mutual
/-- Parse one JSON value; the fuel bounds the recursion depth and is spent
only where at least one character has already been consumed. -/
def parseVal : Nat → List Char → Option (JVal × List Char)
  | 0, _ => none
  | fuel + 1, cs =>
    match skipWs cs with
    | [] => none
    | c :: rest =>
      if c = '"' then (parseStringBody rest).map (fun (s, r) => (JVal.jstr s, r))
      else if c = '\x7b' then
        match skipWs rest with
        | '\x7d' :: r => some (.jobj [], r)
        | r2 => (parseMembers fuel r2).map (fun (fs, r) => (JVal.jobj fs, r))
      else if c = '[' then
        match skipWs rest with
        | ']' :: r => some (.jarr [], r)
        | r2 => (parseElems fuel r2).map (fun (xs, r) => (JVal.jarr xs, r))
      else if c = 't' then
        match rest with
        | 'r' :: 'u' :: 'e' :: r => some (.jbool true, r)
        | _ => none
      else if c = 'f' then
        match rest with
        | 'a' :: 'l' :: 's' :: 'e' :: r => some (.jbool false, r)
        | _ => none
      else if c = 'n' then
        match rest with
        | 'u' :: 'l' :: 'l' :: r => some (.jnull, r)
        | _ => none
      else parseNumber (c :: rest)

/-- Parse the members of an object, after the opening brace (at least one
member), up to and including the closing brace. -/
def parseMembers : Nat → List Char → Option (List (String × JVal) × List Char)
  | 0, _ => none
  | fuel + 1, cs =>
    match skipWs cs with
    | '"' :: rest =>
      match parseStringBody rest with
      | none => none
      | some (k, r1) =>
        match skipWs r1 with
        | ':' :: r2 =>
          match parseVal fuel r2 with
          | none => none
          | some (v, r3) =>
            match skipWs r3 with
            | ',' :: r4 => (parseMembers fuel r4).map (fun (fs, r) => ((k, v) :: fs, r))
            | '\x7d' :: r4 => some ([(k, v)], r4)
            | _ => none
        | _ => none
    | _ => none

/-- Parse the elements of an array (at least one element), up to and
including the closing bracket. -/
def parseElems : Nat → List Char → Option (List JVal × List Char)
  | 0, _ => none
  | fuel + 1, cs =>
    match parseVal fuel cs with
    | none => none
    | some (v, r1) =>
      match skipWs r1 with
      | ',' :: r2 => (parseElems fuel r2).map (fun (xs, r) => (v :: xs, r))
      | ']' :: r2 => some ([v], r2)
      | _ => none
end

/-- Model of `JSON.parse`: parse one value, require only whitespace after it;
`none` models a thrown `SyntaxError`. -/
def jsonParse (s : String) : Option JVal :=
  let cs := s.toList
  match parseVal (cs.length + 1) cs with
  | some (v, r) => if (skipWs r).isEmpty then some v else none
  | none => none

/-! ### The contract operations

Each method of the `AssetTransfer` contract becomes a function taking the
current store and the method's string arguments (chaincode arguments arrive
as strings) and returning the store after the call together with an
`Except` result; `Except.error msg` models `throw new Error(msg)`, in which
case the store is returned unchanged since the source throws before any
`putState`. -/

/-- `AssetExists(ctx, id)`: `assetJSON && assetJSON.length > 0`. -/
def AssetExists (st : Store) (id : String) : Bool :=
  match getState st id with
  | some s => decide (0 < s.length)
  | none => false

/-- The five-field object literal `{ID, Color, Size, Owner, AppraisedValue}`
built by `CreateAsset` and `UpdateAsset`, in source insertion order; the two
methods differ only in the values supplied for `Size` and `AppraisedValue`. -/
def assetFields (id color : String) (size : JVal) (owner : String) (appraisedValue : JVal) :
    List (String × JVal) :=
  [("ID", .jstr id), ("Color", .jstr color), ("Size", size),
   ("Owner", .jstr owner), ("AppraisedValue", appraisedValue)]

/-- The five-field asset record as a JavaScript object. -/
def assetRecord (id color : String) (size : JVal) (owner : String) (appraisedValue : JVal) :
    JVal :=
  .jobj (assetFields id color size owner appraisedValue)

/-- `CreateAsset(ctx, id, color, size, owner, appraisedValue)`: reject an
existing id, otherwise build the record (coercing `size` and
`appraisedValue` with `Number`), write its canonical encoding, and return
`JSON.stringify(asset)` (insertion order, not the canonical form). -/
def CreateAsset (st : Store) (id color size owner appraisedValue : String) :
    Store × Except String String :=
  if AssetExists st id then
    (st, .error ("The asset " ++ id ++ " already exists"))
  else
    let asset : JVal := assetRecord id color (jsNumber size) owner (jsNumber appraisedValue)
    (putState st id (encode asset), .ok (serializeJson asset))

/-- `ReadAsset(ctx, id)`: return the stored bytes decoded as text, or throw
when the key is absent or holds an empty value.  Reading does not change the
store, so only the result is returned. -/
def ReadAsset (st : Store) (id : String) : Except String String :=
  match getState st id with
  | some s =>
    if 0 < s.length then .ok s
    else .error ("The asset " ++ id ++ " does not exist")
  | none => .error ("The asset " ++ id ++ " does not exist")

/-- `UpdateAsset(ctx, id, color, size, owner, appraisedValue)`: require the
id to exist, then overwrite the record with a fresh five-field object whose
`Size` and `AppraisedValue` are the argument strings, uncoerced. -/
def UpdateAsset (st : Store) (id color size owner appraisedValue : String) :
    Store × Except String Unit :=
  if AssetExists st id then
    let updatedAsset : JVal :=
      assetRecord id color (.jstr size) owner (.jstr appraisedValue)
    (putState st id (encode updatedAsset), .ok ())
  else
    (st, .error ("The asset " ++ id ++ " does not exist"))

/-- `DeleteAsset(ctx, id)`: require the id to exist, then delete the key. -/
def DeleteAsset (st : Store) (id : String) : Store × Except String Unit :=
  if AssetExists st id then
    (deleteState st id, .ok ())
  else
    (st, .error ("The asset " ++ id ++ " does not exist"))

/-- `TransferAsset(ctx, id, newOwner)`: read the stored text via `ReadAsset`,
`JSON.parse` it, capture the prior `Owner`, set `Owner` to `newOwner`,
write the canonical re-encoding, and return the prior owner (a JavaScript
value, `none` standing for `undefined` when the record has no `Owner`).
When the parsed value is not an object, the strict-mode property assignment
`asset.Owner = newOwner` throws a `TypeError`. -/
def TransferAsset (st : Store) (id newOwner : String) :
    Store × Except String (Option JVal) :=
  match ReadAsset st id with
  | .error e => (st, .error e)
  | .ok assetString =>
    match jsonParse assetString with
    | none => (st, .error "SyntaxError: Unexpected token in JSON")
    | some (.jobj fs) =>
      let oldOwner := lookupField fs "Owner"
      let fs2 := setField fs "Owner" (.jstr newOwner)
      (putState st id (encode (.jobj fs2)), .ok oldOwner)
    | some _ => (st, .error "TypeError: cannot set property Owner of a non-object")

/-- The six literal sample records of `InitLedger`, in source order, each a
field list in source insertion order (`docType` not yet added). -/
def initLedgerAssets : List (List (String × JVal)) :=
  [ [("ID", .jstr "asset1"), ("Color", .jstr "blue"), ("Size", .jnum 5),
     ("Owner", .jstr "Tomoko"), ("AppraisedValue", .jnum 300)],
    [("ID", .jstr "asset2"), ("Color", .jstr "red"), ("Size", .jnum 5),
     ("Owner", .jstr "Brad"), ("AppraisedValue", .jnum 400)],
    [("ID", .jstr "asset3"), ("Color", .jstr "green"), ("Size", .jnum 10),
     ("Owner", .jstr "Jin Soo"), ("AppraisedValue", .jnum 500)],
    [("ID", .jstr "asset4"), ("Color", .jstr "yellow"), ("Size", .jnum 10),
     ("Owner", .jstr "Max"), ("AppraisedValue", .jnum 600)],
    [("ID", .jstr "asset5"), ("Color", .jstr "black"), ("Size", .jnum 15),
     ("Owner", .jstr "Adriana"), ("AppraisedValue", .jnum 700)],
    [("ID", .jstr "asset6"), ("Color", .jstr "white"), ("Size", .jnum 15),
     ("Owner", .jstr "Michel"), ("AppraisedValue", .jnum 800)] ]

/-- The key `asset.ID` under which `InitLedger` stores a record (always a
string in the sample data). -/
def assetKey (fs : List (String × JVal)) : String :=
  match lookupField fs "ID" with
  | some (.jstr s) => s
  | _ => ""

/-- `InitLedger(ctx)`: for each sample record, set `asset.docType = 'asset'`
(appended, since the literals have no `docType`) and write the canonical
encoding under the record's `ID`. -/
def InitLedger (st : Store) : Store :=
  initLedgerAssets.foldl
    (fun acc fs =>
      let fs2 := setField fs "docType" (.jstr "asset")
      putState acc (assetKey fs2) (encode (.jobj fs2)))
    st

/-! ### `GetAllAssets` and the range-scan iterator

`GetAllAssets` drives the iterator returned by
`ctx.stub.getStateByRange('', '')` with repeated `next()` calls until
`done`.  Besides the result we record the trace of calls the method issues
against the stub and its iterator, to state resource-handling properties;
the source contains no `iterator.close()` call and no `try/finally`, so the
loop below issues no close event on any path. -/

/-- One call issued by `GetAllAssets` against the stub or its iterator. -/
inductive StubEvent where
  | openRange (startKey endKey : String) : StubEvent
  | iterNext : StubEvent
  | iterClose : StubEvent
deriving Repr, DecidableEq

/-- The `while (!result.done)` loop: `remaining` is what the iterator has
not yet delivered; each iteration decodes one value (`JSON.parse` in a
`try`, falling back to the raw text on failure) and calls `next()` again.
Returns the accumulated records and the calls issued (one `iterNext` per
delivered entry, plus the final one that reports `done`). -/
def getAllLoop : List (String × String) → List JVal × List StubEvent
  | [] => ([], [.iterNext])
  | (_, v) :: rest =>
    let record : JVal :=
      match jsonParse v with
      | some j => j
      | none => .jstr v
    let tail := getAllLoop rest
    (record :: tail.1, .iterNext :: tail.2)

/-- `GetAllAssets(ctx)` as a run: the full-namespace range scan delivers the
store's entries in ascending key order (the store is kept key-sorted);
returns the `allResults` array and the trace of stub calls. -/
def getAllAssetsRun (st : Store) : List JVal × List StubEvent :=
  let body := getAllLoop st
  (body.1, .openRange "" "" :: body.2)

/-- The `allResults` array built by `GetAllAssets`. -/
def getAllAssetsList (st : Store) : List JVal := (getAllAssetsRun st).1

/-- The trace of stub and iterator calls issued by `GetAllAssets`. -/
def getAllAssetsTrace (st : Store) : List StubEvent := (getAllAssetsRun st).2

/-- `GetAllAssets(ctx)`: `JSON.stringify(allResults)`. -/
def GetAllAssets (st : Store) : String :=
  serializeJson (.jarr (getAllAssetsList st))

/-! ### Equality as field-name-to-value mappings

For the canonical-encoding determinism property we need to say when two
values are *equal as field-name-to-value mappings*: identical primitives,
elementwise-equivalent arrays, and objects whose field lists are
permutations of one another with equivalent values field by field (any
permutation of insertion order, at any nesting level).  `ObjEquiv` mirrors
the constructors of `List.Perm`, allowing the paired values to vary up to
the equivalence. -/

mutual
/-- Two JavaScript values are equal as field-name-to-value mappings. -/
inductive MapEquiv : JVal → JVal → Prop where
  | jstr (s : String) : MapEquiv (.jstr s) (.jstr s)
  | jnum (n : Int) : MapEquiv (.jnum n) (.jnum n)
  | jnan : MapEquiv .jnan .jnan
  | jbool (b : Bool) : MapEquiv (.jbool b) (.jbool b)
  | jnull : MapEquiv .jnull .jnull
  | jarr : ArrEquiv xs ys → MapEquiv (.jarr xs) (.jarr ys)
  | jobj : ObjEquiv fs gs → MapEquiv (.jobj fs) (.jobj gs)

/-- Arrays are compared elementwise (array order is significant). -/
inductive ArrEquiv : List JVal → List JVal → Prop where
  | nil : ArrEquiv [] []
  | cons : MapEquiv x y → ArrEquiv xs ys → ArrEquiv (x :: xs) (y :: ys)

/-- Field lists are compared up to permutation, with equivalent values. -/
inductive ObjEquiv : List (String × JVal) → List (String × JVal) → Prop where
  | nil : ObjEquiv [] []
  | cons (k : String) : MapEquiv v w → ObjEquiv fs gs →
      ObjEquiv ((k, v) :: fs) ((k, w) :: gs)
  | swap (k k' : String) : MapEquiv v v' → MapEquiv w w' → ObjEquiv fs gs →
      ObjEquiv ((k, v) :: (k', w) :: fs) ((k', w') :: (k, v') :: gs)
  | trans : ObjEquiv fs gs → ObjEquiv gs hs → ObjEquiv fs hs
end

/-- The field names of an object's field list, in order. -/
def fieldKeys (fs : List (String × JVal)) : List String := fs.map Prod.fst

/-- No repeated elements, as an executable check. -/
def keysNodupB (ks : List String) : Bool := decide ks.Nodup

mutual
/-- A value is well-formed as a record: at every nesting level, no object
repeats a field name (a JavaScript object holds each key at most once). -/
def NoDupKeys : JVal → Bool
  | .jobj fs => keysNodupB (fieldKeys fs) && fieldsND fs
  | .jarr xs => arrND xs
  | .jstr _ => true
  | .jnum _ => true
  | .jnan => true
  | .jbool _ => true
  | .jnull => true

/-- `NoDupKeys` on every value of a field list. -/
def fieldsND : List (String × JVal) → Bool
  | [] => true
  | (_, v) :: fs => NoDupKeys v && fieldsND fs

/-- `NoDupKeys` on every element of an array. -/
def arrND : List JVal → Bool
  | [] => true
  | x :: xs => NoDupKeys x && arrND xs
end

/-- Field read on a parsed record: `r[k]` when `r` is an object, otherwise
`undefined` (`none`). -/
def lookupJ : JVal → String → Option JVal
  | .jobj fs, k => lookupField fs k
  | _, _ => none

/-! ### Ordering and sorting lemmas -/

/-- The non-strict key order used by the sort, as a relation on fields. -/
def fieldLe (f g : String × JVal) : Prop := strLeB f.1 g.1 = true

/-- The strict key order, as a relation on fields. -/
def fieldLt (f g : String × JVal) : Prop := strLtB f.1 g.1 = true

theorem listLtB_asymm : ∀ {a b : List Char}, listLtB a b = true → listLtB b a = false := by
  intro a
  induction a with
  | nil => intro b h; cases b with
    | nil => simp [listLtB] at h
    | cons y ys => simp [listLtB]
  | cons x xs ih => intro b h; cases b with
    | nil => simp [listLtB] at h
    | cons y ys =>
      by_cases hxy : x = y
      · subst hxy
        simp only [listLtB, if_pos rfl] at h ⊢
        exact ih h
      · have hyx : y ≠ x := fun e => hxy e.symm
        simp only [listLtB, if_neg hxy, if_neg hyx, decide_eq_true_eq] at h
        simp only [listLtB, if_neg hyx, decide_eq_false_iff_not]
        exact not_lt.mpr (le_of_lt h)

theorem listLtB_antisymm : ∀ {a b : List Char}, listLtB a b = false → listLtB b a = false → a = b := by
  intro a
  induction a with
  | nil => intro b h1 h2; cases b with
    | nil => rfl
    | cons y ys => simp [listLtB] at h1
  | cons x xs ih => intro b h1 h2; cases b with
    | nil => simp [listLtB] at h2
    | cons y ys =>
      by_cases hxy : x = y
      · subst hxy
        simp only [listLtB, if_pos rfl] at h1 h2
        rw [ih h1 h2]
      · have hyx : y ≠ x := fun e => hxy e.symm
        simp only [listLtB, if_neg hxy, if_neg hyx, decide_eq_false_iff_not] at h1 h2
        exact absurd (le_antisymm (not_lt.mp h2) (not_lt.mp h1)) hxy

theorem listLtB_connect :
    ∀ {c a b : List Char}, listLtB c a = true → listLtB c b = true ∨ listLtB b a = true := by
  intro c
  induction c with
  | nil => intro a b h; cases a with
    | nil => simp [listLtB] at h
    | cons z zs => cases b with
      | nil => right; simp [listLtB]
      | cons w ws => left; simp [listLtB]
  | cons x xs ih => intro a b h; cases a with
    | nil => simp [listLtB] at h
    | cons y ys => cases b with
      | nil => right; simp [listLtB]
      | cons w ws =>
        by_cases hxw : x = w
        · subst hxw
          by_cases hxy : x = y
          · subst hxy
            simp only [listLtB, if_pos rfl] at h ⊢
            exact ih h
          · simp only [listLtB, if_pos rfl, if_neg hxy] at h ⊢
            right; exact h
        · by_cases hxy : x = y
          · subst hxy
            rcases lt_trichotomy x w with hlt | heq | hgt
            · left; simp [listLtB, if_neg hxw, hlt]
            · exact absurd heq hxw
            · right
              have hwx : w ≠ x := fun e => hxw e.symm
              simp [listLtB, if_neg hwx, hgt]
          · simp only [listLtB, if_neg hxy, decide_eq_true_eq] at h
            rcases lt_trichotomy x w with hlt | heq | hgt
            · left; simp [listLtB, if_neg hxw, hlt]
            · exact absurd heq hxw
            · right
              have hwy : w < y := lt_trans hgt h
              have hwyne : w ≠ y := ne_of_lt hwy
              simp [listLtB, if_neg hwyne, hwy]

theorem strLtB_asymm {a b : String} (h : strLtB a b = true) : strLtB b a = false :=
  listLtB_asymm h

theorem strLtB_antisymm {a b : String} (h1 : strLtB a b = false) (h2 : strLtB b a = false) :
    a = b := by
  have h : a.data = b.data := listLtB_antisymm h1 h2
  exact congrArg String.mk h

theorem strLeB_total {a b : String} (h : strLeB a b = false) : strLeB b a = true := by
  simp only [strLeB, Bool.not_eq_false'] at h
  simp only [strLeB, Bool.not_eq_true', strLtB_asymm h]

theorem strLeB_trans {a b c : String} (h1 : strLeB a b = true) (h2 : strLeB b c = true) :
    strLeB a c = true := by
  simp only [strLeB, Bool.not_eq_true'] at h1 h2 ⊢
  by_contra hca
  rw [Bool.not_eq_false] at hca
  rcases listLtB_connect (c := c.toList) (a := a.toList) (b := b.toList) hca with h | h
  · have h' : strLtB c b = true := h
    rw [h2] at h'; exact Bool.false_ne_true h'
  · have h' : strLtB b a = true := h
    rw [h1] at h'; exact Bool.false_ne_true h' 

theorem strLeB_refl (a : String) : strLeB a a = true := by
  simp only [strLeB, Bool.not_eq_true']
  by_contra h
  rw [Bool.not_eq_false] at h
  have := strLtB_asymm h
  rw [this] at h
  exact Bool.false_ne_true h

theorem insertByKey_perm (e : String × JVal) (fs : List (String × JVal)) :
    List.Perm (insertByKey e fs) (e :: fs) := by
  induction fs with
  | nil => simp [insertByKey]
  | cons f fs ih =>
    simp only [insertByKey]
    by_cases h : strLeB e.1 f.1 = true
    · rw [if_pos h]
    · rw [if_neg h]
      exact (ih.cons f).trans (List.Perm.swap e f fs)

theorem keySort_perm (fs : List (String × JVal)) : List.Perm (keySort fs) fs := by
  induction fs with
  | nil => simp [keySort]
  | cons f fs ih => exact (insertByKey_perm f (keySort fs)).trans (ih.cons f)

theorem insertByKey_sorted {e : String × JVal} {fs : List (String × JVal)}
    (hs : List.Pairwise fieldLe fs) : List.Pairwise fieldLe (insertByKey e fs) := by
  induction fs with
  | nil => simp [insertByKey]
  | cons f fs ih =>
    simp only [insertByKey]
    rcases List.pairwise_cons.mp hs with ⟨hf, hfs⟩
    by_cases h : strLeB e.1 f.1 = true
    · rw [if_pos h]
      refine List.pairwise_cons.mpr ⟨?_, hs⟩
      intro g hg
      rcases List.mem_cons.mp hg with rfl | hg2
      · exact h
      · exact strLeB_trans h (hf g hg2)
    · rw [if_neg h]
      have hfe : fieldLe f e := strLeB_total (Bool.not_eq_true _ ▸ h)
      refine List.pairwise_cons.mpr ⟨?_, ih hfs⟩
      intro g hg
      rcases List.mem_cons.mp ((insertByKey_perm e fs).mem_iff.mp hg) with rfl | hg2
      · exact hfe
      · exact hf g hg2

theorem keySort_sorted (fs : List (String × JVal)) : List.Pairwise fieldLe (keySort fs) := by
  induction fs with
  | nil => simp [keySort]
  | cons f fs ih => exact insertByKey_sorted ih

theorem strLtB_of_le_ne {a b : String} (h : strLeB a b = true) (hne : a ≠ b) :
    strLtB a b = true := by
  by_contra hc
  rw [Bool.not_eq_true] at hc
  simp only [strLeB, Bool.not_eq_true'] at h
  exact hne (strLtB_antisymm hc h)

theorem pairwise_lt_of_le_nodup {fs : List (String × JVal)} (hle : List.Pairwise fieldLe fs)
    (hnd : (fieldKeys fs).Nodup) : List.Pairwise fieldLt fs := by
  have hne : List.Pairwise (fun f g : String × JVal => f.1 ≠ g.1) fs :=
    (List.pairwise_map.mp hnd)
  exact (hle.and hne).imp (fun h => strLtB_of_le_ne h.1 h.2)

instance : IsAntisymm (String × JVal) fieldLt := by
  refine ⟨fun a b h1 h2 => ?_⟩
  have h3 := strLtB_asymm h1
  rw [fieldLt, h3] at h2
  exact absurd h2 (by simp)

theorem sorted_unique {fs gs : List (String × JVal)} (hp : List.Perm fs gs)
    (h1 : List.Pairwise fieldLt fs) (h2 : List.Pairwise fieldLt gs) : fs = gs :=
  List.eq_of_perm_of_sorted hp h1 h2

theorem sortFields_keys : ∀ fs : List (String × JVal), fieldKeys (sortFields fs) = fieldKeys fs
  | [] => rfl
  | (k, v) :: fs => by simp only [sortFields, fieldKeys, List.map_cons]
                       exact congrArg (k :: ·) (sortFields_keys fs)

theorem mapEquiv_canon : ∀ {a b : JVal}, MapEquiv a b → NoDupKeys a = true →
    NoDupKeys b = true ∧ sortKeysRecursive a = sortKeysRecursive b := by
  intro a b h
  refine @MapEquiv.rec
    (fun a b _ => NoDupKeys a = true →
      NoDupKeys b = true ∧ sortKeysRecursive a = sortKeysRecursive b)
    (fun xs ys _ => arrND xs = true → arrND ys = true ∧ sortArr xs = sortArr ys)
    (fun fs gs _ => List.Perm (fieldKeys fs) (fieldKeys gs) ∧
      (fieldsND fs = true → fieldsND gs = true ∧ List.Perm (sortFields fs) (sortFields gs)))
    ?_ ?_ ?_ ?_ ?_ ?_ ?_ ?_ ?_ ?_ ?_ ?_ ?_ a b h
  · exact fun s hd => ⟨hd, rfl⟩
  · exact fun n hd => ⟨hd, rfl⟩
  · exact fun hd => ⟨hd, rfl⟩
  · exact fun b hd => ⟨hd, rfl⟩
  · exact fun hd => ⟨hd, rfl⟩
  · intro xs ys ha ih hd
    obtain ⟨h1, h2⟩ := ih hd
    exact ⟨h1, congrArg JVal.jarr h2⟩
  · intro fs gs ho ih hd
    simp only [NoDupKeys, Bool.and_eq_true] at hd
    obtain ⟨hndf, hfnd⟩ := hd
    obtain ⟨hkp, hrest⟩ := ih
    obtain ⟨hgnd, hperm⟩ := hrest hfnd
    have hkeys : (fieldKeys fs).Nodup := of_decide_eq_true hndf
    have hkeysg : (fieldKeys gs).Nodup := hkp.nodup_iff.mp hkeys
    constructor
    · simp only [NoDupKeys, Bool.and_eq_true]
      exact ⟨decide_eq_true hkeysg, hgnd⟩
    · show JVal.jobj (keySort (sortFields fs)) = JVal.jobj (keySort (sortFields gs))
      refine congrArg JVal.jobj (sorted_unique ?_ ?_ ?_)
      · exact (keySort_perm _).trans (hperm.trans (keySort_perm _).symm)
      · have p1 : List.Perm (fieldKeys (keySort (sortFields fs))) (fieldKeys (sortFields fs)) :=
          (keySort_perm (sortFields fs)).map Prod.fst
        rw [sortFields_keys] at p1
        exact pairwise_lt_of_le_nodup (keySort_sorted _) (p1.nodup_iff.mpr hkeys)
      · have p2 : List.Perm (fieldKeys (keySort (sortFields gs))) (fieldKeys (sortFields gs)) :=
          (keySort_perm (sortFields gs)).map Prod.fst
        rw [sortFields_keys] at p2
        exact pairwise_lt_of_le_nodup (keySort_sorted _) (p2.nodup_iff.mpr hkeysg)
  · exact fun _ => ⟨rfl, rfl⟩
  · intro x y xs ys hxy hxs ih1 ih2 hd
    simp only [arrND, Bool.and_eq_true] at hd
    obtain ⟨e1, e2⟩ := ih1 hd.1
    obtain ⟨e3, e4⟩ := ih2 hd.2
    refine ⟨?_, ?_⟩
    · simp only [arrND, Bool.and_eq_true]
      exact ⟨e1, e3⟩
    · show sortKeysRecursive x :: sortArr xs = sortKeysRecursive y :: sortArr ys
      rw [e2, e4]
  · exact ⟨List.Perm.refl _, fun _ => ⟨rfl, List.Perm.refl _⟩⟩
  · intro v w fs gs k hvw ho ih1 ih3
    constructor
    · show List.Perm (k :: fieldKeys fs) (k :: fieldKeys gs)
      exact ih3.1.cons k
    · intro hd
      simp only [fieldsND, Bool.and_eq_true] at hd
      obtain ⟨hv, hf⟩ := hd
      obtain ⟨hw, heqv⟩ := ih1 hv
      obtain ⟨hg, hpermf⟩ := ih3.2 hf
      refine ⟨?_, ?_⟩
      · simp only [fieldsND, Bool.and_eq_true]
        exact ⟨hw, hg⟩
      · show List.Perm ((k, sortKeysRecursive v) :: sortFields fs)
          ((k, sortKeysRecursive w) :: sortFields gs)
        rw [heqv]
        exact hpermf.cons _
  · intro v v' w w' fs gs k k' hv hw ho ihv ihw iho
    constructor
    · show List.Perm (k :: k' :: fieldKeys fs) (k' :: k :: fieldKeys gs)
      exact (List.Perm.swap k' k (fieldKeys fs)).trans ((iho.1.cons k).cons k')
    · intro hd
      simp only [fieldsND, Bool.and_eq_true] at hd
      obtain ⟨h1, h2, h3⟩ := hd
      obtain ⟨hv', ev⟩ := ihv h1
      obtain ⟨hw', ew⟩ := ihw h2
      obtain ⟨hg, hp⟩ := iho.2 h3
      refine ⟨?_, ?_⟩
      · simp only [fieldsND, Bool.and_eq_true]
        exact ⟨hw', hv', hg⟩
      · show List.Perm
          ((k, sortKeysRecursive v) :: (k', sortKeysRecursive w) :: sortFields fs)
          ((k', sortKeysRecursive w') :: (k, sortKeysRecursive v') :: sortFields gs)
        rw [← ev, ← ew]
        exact (List.Perm.swap (k', sortKeysRecursive w) (k, sortKeysRecursive v)
          (sortFields fs)).trans ((hp.cons _).cons _)
  · intro fs gs hs h1 h2 ih1 ih2
    refine ⟨ih1.1.trans ih2.1, fun hd => ?_⟩
    obtain ⟨hg, p1⟩ := ih1.2 hd
    obtain ⟨hh, p2⟩ := ih2.2 hg
    exact ⟨hh, p1.trans p2⟩

/-! ### Store and operation lemmas -/

theorem getState_putState_self (st : Store) (k v : String) :
    getState (putState st k v) k = some v := by
  induction st with
  | nil => simp [putState, getState]
  | cons e st ih =>
    obtain ⟨k', v'⟩ := e
    simp only [putState]
    by_cases h1 : strLtB k k' = true
    · rw [if_pos h1]; simp [getState]
    · rw [if_neg h1]
      by_cases h2 : k = k'
      · rw [if_pos h2]; simp [getState]
      · rw [if_neg h2]
        simp only [getState, if_neg h2]
        exact ih

theorem jsNumber_isNumberType (s : String) : (jsNumber s).isNumberType = true := by
  unfold jsNumber
  split
  · rfl
  · split <;> rfl
  · split <;> rfl
  · split <;> rfl

theorem serializeJson_jobj_length_pos (fs : List (String × JVal)) :
    0 < (serializeJson (.jobj fs)).length := by
  have h : serializeJson (.jobj fs) = "\x7b" ++ serializeFields fs ++ "\x7d" := rfl
  have h1 : ("\x7b" : String).length = 1 := rfl
  rw [h, String.length_append, String.length_append, h1]
  omega

theorem encode_jobj_length_pos (fs : List (String × JVal)) :
    0 < (encode (.jobj fs)).length := by
  have h : encode (.jobj fs) =
      serializeJson (.jobj (keySort (sortFields (keySort (sortFields fs))))) := rfl
  rw [h]
  exact serializeJson_jobj_length_pos _

theorem jsonParse_length_pos {s : String} {v : JVal} (h : jsonParse s = some v) :
    0 < s.length := by
  by_contra hc
  have h0 : s.length = 0 := Nat.eq_zero_of_not_pos hc
  have hd : s.data = [] := List.length_eq_zero.mp h0
  have hs : s = "" := congrArg String.mk hd
  subst hs
  have hnone : (none : Option JVal) = some v := h
  exact Option.noConfusion hnone

theorem assetExists_of_parse {st : Store} {id sv : String} {v : JVal}
    (hget : getState st id = some sv) (hp : jsonParse sv = some v) :
    AssetExists st id = true := by
  simp only [AssetExists, hget]
  exact decide_eq_true (jsonParse_length_pos hp)

theorem readAsset_some {st : Store} {id sv : String} (hget : getState st id = some sv)
    (hlen : 0 < sv.length) : ReadAsset st id = .ok sv := by
  simp [ReadAsset, hget, hlen]

theorem readAsset_absent {st : Store} {id : String} (h : AssetExists st id = false) :
    ReadAsset st id = .error ("The asset " ++ id ++ " does not exist") := by
  unfold AssetExists at h
  unfold ReadAsset
  cases hg : getState st id with
  | none => rfl
  | some s =>
    rw [hg] at h
    have h2 : decide (0 < s.length) = false := h
    show (if 0 < s.length then Except.ok s
      else Except.error ("The asset " ++ id ++ " does not exist")) =
      Except.error ("The asset " ++ id ++ " does not exist")
    rw [if_neg (of_decide_eq_false h2)]

theorem lookupField_setField_self (fs : List (String × JVal)) (k : String) (v : JVal) :
    lookupField (setField fs k v) k = some v := by
  induction fs with
  | nil => simp [setField, lookupField]
  | cons f fs ih =>
    obtain ⟨k', v'⟩ := f
    simp only [setField]
    by_cases h : k = k'
    · rw [if_pos h]; simp [lookupField]
    · rw [if_neg h]
      simp only [lookupField, if_neg h]
      exact ih

theorem lookupField_setField_ne (fs : List (String × JVal)) (k k2 : String) (v : JVal)
    (h : k2 ≠ k) : lookupField (setField fs k v) k2 = lookupField fs k2 := by
  induction fs with
  | nil => simp [setField, lookupField, h]
  | cons f fs ih =>
    obtain ⟨ka, va⟩ := f
    simp only [setField]
    by_cases h1 : k = ka
    · rw [if_pos h1]
      subst h1
      simp only [lookupField, if_neg h]
    · rw [if_neg h1]
      by_cases h2 : k2 = ka
      · simp only [lookupField, if_pos h2]
      · simp only [lookupField, if_neg h2]
        exact ih

theorem mem_fieldKeys_setField {fs : List (String × JVal)} {k2 : String} (k : String)
    (v : JVal) (h : k2 ∈ fieldKeys fs) : k2 ∈ fieldKeys (setField fs k v) := by
  induction fs with
  | nil => simp [fieldKeys] at h
  | cons f fs ih =>
    obtain ⟨ka, va⟩ := f
    simp only [fieldKeys, List.map_cons] at h
    rcases List.mem_cons.mp h with hEq | h2
    · subst hEq
      simp only [setField]
      by_cases h1 : k = k2
      · rw [if_pos h1]
        subst h1
        simp [fieldKeys]
      · rw [if_neg h1]
        simp [fieldKeys]
    · simp only [setField]
      by_cases h1 : k = ka
      · rw [if_pos h1]
        simp only [fieldKeys, List.map_cons]
        exact List.mem_cons_of_mem _ h2
      · rw [if_neg h1]
        simp only [fieldKeys, List.map_cons]
        exact List.mem_cons_of_mem _ (ih h2)

theorem transferAsset_eq {st : Store} {id sv : String} {fs : List (String × JVal)}
    (newOwner : String) (hget : getState st id = some sv)
    (hp : jsonParse sv = some (.jobj fs)) :
    TransferAsset st id newOwner =
      (putState st id (encode (.jobj (setField fs "Owner" (.jstr newOwner)))),
       .ok (lookupField fs "Owner")) := by
  have hlen : 0 < sv.length := jsonParse_length_pos hp
  simp [TransferAsset, readAsset_some hget hlen, hp]

theorem updateAsset_eq {st : Store} {id : String} (color size owner appraisedValue : String)
    (hex : AssetExists st id = true) :
    UpdateAsset st id color size owner appraisedValue =
      (putState st id (encode (assetRecord id color (.jstr size) owner
        (.jstr appraisedValue))), .ok ()) := by
  unfold UpdateAsset
  rw [if_pos hex]

theorem createAsset_eq {st : Store} {id : String} (color size owner appraisedValue : String)
    (h : AssetExists st id = false) :
    CreateAsset st id color size owner appraisedValue =
      (putState st id (encode (assetRecord id color (jsNumber size) owner
          (jsNumber appraisedValue))),
       .ok (serializeJson (assetRecord id color (jsNumber size) owner
          (jsNumber appraisedValue)))) := by
  unfold CreateAsset
  rw [h]
  simp

theorem getAllLoop_fst : ∀ st : List (String × String),
    (getAllLoop st).1 = st.map (fun kv =>
      match jsonParse kv.2 with
      | some record => record
      | none => JVal.jstr kv.2)
  | [] => rfl
  | (k, v) :: st => by
    simp only [getAllLoop, List.map_cons]
    rw [getAllLoop_fst st]

theorem getAllLoop_snd : ∀ st : List (String × String),
    (getAllLoop st).2 = List.replicate (st.length + 1) StubEvent.iterNext
  | [] => rfl
  | (k, v) :: st => by
    simp only [getAllLoop, List.length_cons]
    rw [getAllLoop_snd st]
    rfl

/-! ### The claims -/

/-- Claim C1: Canonical encoding determinism: for every pair of records that
are equal as field-name-to-value mappings (any permutation of field
insertion order, any nesting; a JavaScript record holds each field name
once, `NoDupKeys`), the byte sequence written to the store — produced by
recursively sorting keys and deterministically serializing — is identical
for the two records. -/
theorem canonical_encoding_deterministic (a b : JVal) (h : MapEquiv a b)
    (hnd : NoDupKeys a = true) : encode a = encode b := by
  have hc := (mapEquiv_canon h hnd).2
  show serializeJson (sortKeysRecursive (sortKeysRecursive a)) =
    serializeJson (sortKeysRecursive (sortKeysRecursive b))
  rw [hc]

/-- Witness for C1, at the spec's example: `{Owner:"Brad", ID:"asset2"}` and
`{ID:"asset2", Owner:"Brad"}` encode identically. -/
theorem canonical_encoding_deterministic_witness :
    MapEquiv (JVal.jobj [("Owner", .jstr "Brad"), ("ID", .jstr "asset2")])
        (JVal.jobj [("ID", .jstr "asset2"), ("Owner", .jstr "Brad")]) ∧
      NoDupKeys (JVal.jobj [("Owner", .jstr "Brad"), ("ID", .jstr "asset2")]) = true ∧
      encode (JVal.jobj [("Owner", .jstr "Brad"), ("ID", .jstr "asset2")]) =
        encode (JVal.jobj [("ID", .jstr "asset2"), ("Owner", .jstr "Brad")]) :=
  have hm : MapEquiv (JVal.jobj [("Owner", .jstr "Brad"), ("ID", .jstr "asset2")])
      (JVal.jobj [("ID", .jstr "asset2"), ("Owner", .jstr "Brad")]) :=
    MapEquiv.jobj (ObjEquiv.swap "Owner" "ID" (MapEquiv.jstr "Brad")
      (MapEquiv.jstr "asset2") ObjEquiv.nil)
  ⟨hm, rfl, canonical_encoding_deterministic _ _ hm rfl⟩

/-- Claim C2: Create/Read round-trip: for any id not present in the store,
`CreateAsset` writes the canonical encoding of the five-field record (with
`Size` and `AppraisedValue` coerced to numbers) and returns its
`JSON.stringify`; a following `ReadAsset` returns exactly the stored bytes
decoded as text, unmodified, and in general `ReadAsset` returns whatever
non-empty value the store holds, unmodified. -/
theorem create_read_roundtrip (st : Store) (id color size owner appraisedValue : String)
    (h : AssetExists st id = false) :
    (CreateAsset st id color size owner appraisedValue).2 =
      Except.ok (serializeJson (assetRecord id color (jsNumber size) owner
        (jsNumber appraisedValue))) ∧
    getState (CreateAsset st id color size owner appraisedValue).1 id =
      some (encode (assetRecord id color (jsNumber size) owner (jsNumber appraisedValue))) ∧
    ReadAsset (CreateAsset st id color size owner appraisedValue).1 id =
      Except.ok (encode (assetRecord id color (jsNumber size) owner
        (jsNumber appraisedValue))) ∧
    lookupField (assetFields id color (jsNumber size) owner (jsNumber appraisedValue))
      "ID" = some (.jstr id) ∧
    lookupField (assetFields id color (jsNumber size) owner (jsNumber appraisedValue))
      "Color" = some (.jstr color) ∧
    lookupField (assetFields id color (jsNumber size) owner (jsNumber appraisedValue))
      "Size" = some (jsNumber size) ∧
    lookupField (assetFields id color (jsNumber size) owner (jsNumber appraisedValue))
      "Owner" = some (.jstr owner) ∧
    lookupField (assetFields id color (jsNumber size) owner (jsNumber appraisedValue))
      "AppraisedValue" = some (jsNumber appraisedValue) ∧
    (jsNumber size).isNumberType = true ∧
    (jsNumber appraisedValue).isNumberType = true ∧
    (∀ (st2 : Store) (id2 sv : String), getState st2 id2 = some sv → 0 < sv.length →
      ReadAsset st2 id2 = Except.ok sv) := by
  have hC := createAsset_eq color size owner appraisedValue h
  refine ⟨by rw [hC], by rw [hC]; exact getState_putState_self st id _, ?_,
    rfl, rfl, rfl, rfl, rfl, jsNumber_isNumberType _, jsNumber_isNumberType _,
    fun st2 id2 sv hg hl => readAsset_some hg hl⟩
  rw [hC]
  exact readAsset_some (getState_putState_self st id _) (encode_jobj_length_pos _)

/-- Witness for C2: creating `a1` in the empty store and reading it back. -/
theorem create_read_roundtrip_witness :
    AssetExists [] "a1" = false ∧
    ReadAsset (CreateAsset [] "a1" "blue" "5" "Tomoko" "300").1 "a1" =
      Except.ok (encode (assetRecord "a1" "blue" (.jnum 5) "Tomoko" (.jnum 300))) :=
  ⟨rfl, (create_read_roundtrip [] "a1" "blue" "5" "Tomoko" "300" rfl).2.2.1⟩

/-- Claim C3: Duplicate create rejected atomically: for every id already
present in the store, `CreateAsset` fails with the already-exists error and
the store — in particular the stored value for the id — is unchanged. -/
theorem duplicate_create_rejected (st : Store) (id color size owner appraisedValue : String)
    (h : AssetExists st id = true) :
    (CreateAsset st id color size owner appraisedValue).2 =
      Except.error ("The asset " ++ id ++ " already exists") ∧
    (CreateAsset st id color size owner appraisedValue).1 = st ∧
    getState (CreateAsset st id color size owner appraisedValue).1 id = getState st id := by
  have hC : CreateAsset st id color size owner appraisedValue =
      (st, .error ("The asset " ++ id ++ " already exists")) := by
    unfold CreateAsset
    rw [h]
    simp
  exact ⟨by rw [hC], by rw [hC], by rw [hC]⟩

/-- Witness for C3: re-creating an existing key fails and leaves the store
unchanged. -/
theorem duplicate_create_rejected_witness :
    AssetExists [("a1", "v")] "a1" = true ∧
    (CreateAsset [("a1", "v")] "a1" "red" "7" "Brad" "900").2 =
      Except.error ("The asset " ++ "a1" ++ " already exists") ∧
    (CreateAsset [("a1", "v")] "a1" "red" "7" "Brad" "900").1 = [("a1", "v")] :=
  ⟨rfl, (duplicate_create_rejected [("a1", "v")] "a1" "red" "7" "Brad" "900" rfl).1,
    (duplicate_create_rejected [("a1", "v")] "a1" "red" "7" "Brad" "900" rfl).2.1⟩

/-- Claim C4: Transfer semantics: when the store holds a record for the id
(a stored value that decodes as an object), `TransferAsset` returns the
`Owner` value stored before the call, and afterward the stored record is
the canonical re-encoding of the prior record with only `Owner` replaced by
the new owner (every other field unchanged in value); for an absent id it
fails with the does-not-exist error. -/
theorem transfer_semantics :
    (∀ (st : Store) (id newOwner sv : String) (fs : List (String × JVal)),
      getState st id = some sv → jsonParse sv = some (.jobj fs) →
      (TransferAsset st id newOwner).2 = Except.ok (lookupField fs "Owner") ∧
      getState (TransferAsset st id newOwner).1 id =
        some (encode (.jobj (setField fs "Owner" (.jstr newOwner)))) ∧
      lookupField (setField fs "Owner" (.jstr newOwner)) "Owner" =
        some (.jstr newOwner) ∧
      (∀ k : String, k ≠ "Owner" →
        lookupField (setField fs "Owner" (.jstr newOwner)) k = lookupField fs k)) ∧
    (∀ (st : Store) (id newOwner : String), AssetExists st id = false →
      TransferAsset st id newOwner =
        (st, Except.error ("The asset " ++ id ++ " does not exist"))) := by
  constructor
  · intro st id newOwner sv fs hget hp
    have hT := transferAsset_eq newOwner hget hp
    refine ⟨by rw [hT], by rw [hT]; exact getState_putState_self st id _,
      lookupField_setField_self fs "Owner" _, ?_⟩
    intro k hk
    exact lookupField_setField_ne fs "Owner" k _ hk
  · intro st id newOwner h
    simp [TransferAsset, readAsset_absent h]

/-- Witness for C4: transferring `asset1` of the freshly initialized ledger
to Carol returns prior owner Tomoko and stores Carol as the owner. -/
theorem transfer_semantics_witness :
    getState (InitLedger []) "asset1" =
      some (encode (.jobj [("ID", .jstr "asset1"), ("Color", .jstr "blue"),
        ("Size", .jnum 5), ("Owner", .jstr "Tomoko"),
        ("AppraisedValue", .jnum 300), ("docType", .jstr "asset")])) ∧
    jsonParse (encode (.jobj [("ID", .jstr "asset1"), ("Color", .jstr "blue"),
        ("Size", .jnum 5), ("Owner", .jstr "Tomoko"),
        ("AppraisedValue", .jnum 300), ("docType", .jstr "asset")])) =
      some (.jobj [("AppraisedValue", .jnum 300), ("Color", .jstr "blue"),
        ("ID", .jstr "asset1"), ("Owner", .jstr "Tomoko"), ("Size", .jnum 5),
        ("docType", .jstr "asset")]) ∧
    (TransferAsset (InitLedger []) "asset1" "Carol").2 =
      Except.ok (some (.jstr "Tomoko")) ∧
    AssetExists [] "nope" = false ∧
    TransferAsset [] "nope" "Carol" =
      ([], Except.error ("The asset " ++ "nope" ++ " does not exist")) :=
  ⟨rfl, rfl,
    (transfer_semantics.1 (InitLedger []) "asset1" "Carol" _
      [("AppraisedValue", .jnum 300), ("Color", .jstr "blue"),
       ("ID", .jstr "asset1"), ("Owner", .jstr "Tomoko"), ("Size", .jnum 5),
       ("docType", .jstr "asset")] rfl rfl).1,
    rfl, transfer_semantics.2 [] "nope" "Carol" rfl⟩

/-- Claim C5: Full listing after bulk init: starting from the empty store,
after `InitLedger` the `allResults` array of `GetAllAssets` has exactly 6
records, their `ID` fields are `asset1` through `asset6` in ascending key
order, and every record contains `docType = "asset"`. -/
theorem initLedger_getAllAssets :
    (getAllAssetsList (InitLedger [])).length = 6 ∧
    (getAllAssetsList (InitLedger [])).map (fun r => lookupJ r "ID") =
      [some (.jstr "asset1"), some (.jstr "asset2"), some (.jstr "asset3"),
       some (.jstr "asset4"), some (.jstr "asset5"), some (.jstr "asset6")] ∧
    (getAllAssetsList (InitLedger [])).map (fun r => lookupJ r "docType") =
      List.replicate 6 (some (.jstr "asset")) :=
  ⟨rfl, rfl, rfl⟩

/-- Claim C6: Coercion asymmetry: for all string arguments `size` and
`appraisedValue`, `CreateAsset` stores `Size` and `AppraisedValue` coerced
to numeric type (`Number`, hence a number — possibly `NaN` — for every
string), whereas `UpdateAsset` stores them exactly as the supplied strings,
without numeric coercion. -/
theorem coercion_asymmetry :
    (∀ (st : Store) (id color size owner appraisedValue : String),
      AssetExists st id = false →
      getState (CreateAsset st id color size owner appraisedValue).1 id =
        some (encode (assetRecord id color (jsNumber size) owner
          (jsNumber appraisedValue))) ∧
      (jsNumber size).isNumberType = true ∧
      (jsNumber appraisedValue).isNumberType = true) ∧
    (∀ (st : Store) (id color size owner appraisedValue : String),
      AssetExists st id = true →
      getState (UpdateAsset st id color size owner appraisedValue).1 id =
        some (encode (assetRecord id color (.jstr size) owner
          (.jstr appraisedValue)))) := by
  constructor
  · intro st id color size owner appraisedValue h
    refine ⟨?_, jsNumber_isNumberType _, jsNumber_isNumberType _⟩
    rw [createAsset_eq color size owner appraisedValue h]
    exact getState_putState_self st id _
  · intro st id color size owner appraisedValue h
    rw [updateAsset_eq color size owner appraisedValue h]
    exact getState_putState_self st id _

/-- Witness for C6: with the same argument strings, create stores numeric
`5`/`300` while update stores the strings `"5"`/`"300"`. -/
theorem coercion_asymmetry_witness :
    AssetExists [] "a1" = false ∧
    getState (CreateAsset [] "a1" "blue" "5" "Tomoko" "300").1 "a1" =
      some (encode (assetRecord "a1" "blue" (.jnum 5) "Tomoko" (.jnum 300))) ∧
    AssetExists [("a1", "x")] "a1" = true ∧
    getState (UpdateAsset [("a1", "x")] "a1" "blue" "5" "Tomoko" "300").1 "a1" =
      some (encode (assetRecord "a1" "blue" (.jstr "5") "Tomoko" (.jstr "300"))) :=
  ⟨rfl, (coercion_asymmetry.1 [] "a1" "blue" "5" "Tomoko" "300" rfl).1,
    rfl, coercion_asymmetry.2 [("a1", "x")] "a1" "blue" "5" "Tomoko" "300" rfl⟩

/-- Claim C7: Update on absent key fails atomically: for every id absent
from the store, `UpdateAsset` fails with the does-not-exist error, the
store is unchanged, the id still does not exist afterward, and if the key
held nothing before, it holds nothing afterward. -/
theorem update_absent_fails (st : Store) (id color size owner appraisedValue : String)
    (h : AssetExists st id = false) :
    UpdateAsset st id color size owner appraisedValue =
      (st, Except.error ("The asset " ++ id ++ " does not exist")) ∧
    AssetExists (UpdateAsset st id color size owner appraisedValue).1 id = false ∧
    (getState st id = none →
      getState (UpdateAsset st id color size owner appraisedValue).1 id = none) := by
  have hU : UpdateAsset st id color size owner appraisedValue =
      (st, Except.error ("The asset " ++ id ++ " does not exist")) := by
    unfold UpdateAsset
    rw [h]
    simp
  exact ⟨hU, by rw [hU]; exact h, fun hn => by rw [hU]; exact hn⟩

/-- Witness for C7: updating the key `nope` of the empty store fails and the
key does not exist afterward. -/
theorem update_absent_fails_witness :
    AssetExists [] "nope" = false ∧
    UpdateAsset [] "nope" "blue" "5" "Tomoko" "300" =
      ([], Except.error ("The asset " ++ "nope" ++ " does not exist")) ∧
    AssetExists (UpdateAsset [] "nope" "blue" "5" "Tomoko" "300").1 "nope" = false :=
  ⟨rfl, (update_absent_fails [] "nope" "blue" "5" "Tomoko" "300" rfl).1,
    (update_absent_fails [] "nope" "blue" "5" "Tomoko" "300" rfl).2.1⟩

/-- Claim C8: Graceful per-entry decode degradation: for every store
contents, the `allResults` array of `GetAllAssets` has one entry per
scanned key, in scan order; an entry whose value decodes as JSON
contributes the decoded record, and an entry whose value fails to decode
contributes the raw text value instead — the listing as a whole is a total
function of the store and never fails. -/
theorem getAllAssets_decode_fallback (st : Store) :
    getAllAssetsList st = st.map (fun kv =>
      match jsonParse kv.2 with
      | some record => record
      | none => JVal.jstr kv.2) :=
  getAllLoop_fst st

/-- Claim C9: the source of `GetAllAssets` opens the range-scan iterator and
calls only `next()` on it: the trace of stub calls, for every store, is the
range query followed by one `next` per entry plus the final `next` that
reports exhaustion, and contains no `close` — the iterator is never closed,
on any path, contradicting the required release of the scan resource. -/
theorem getAllAssets_never_closes (st : Store) :
    getAllAssetsTrace st =
      StubEvent.openRange "" "" :: List.replicate (st.length + 1) StubEvent.iterNext ∧
    StubEvent.iterClose ∉ getAllAssetsTrace st := by
  have hT : getAllAssetsTrace st =
      StubEvent.openRange "" "" :: List.replicate (st.length + 1) StubEvent.iterNext := by
    show StubEvent.openRange "" "" :: (getAllLoop st).2 = _
    rw [getAllLoop_snd st]
  refine ⟨hT, ?_⟩
  rw [hT]
  intro hmem
  rcases List.mem_cons.mp hmem with h1 | h2
  · exact StubEvent.noConfusion h1
  · exact StubEvent.noConfusion (List.eq_of_mem_replicate h2)

/-- Claim C10: for every asset whose stored record contains a `docType`
field, a successful `UpdateAsset` removes it — the record stored afterward
is the encoding of exactly the five fields `ID`, `Color`, `Size`, `Owner`,
`AppraisedValue` and nothing else — whereas `TransferAsset` on the same
asset re-encodes the full parsed record and keeps `docType`. -/
theorem update_removes_docType_transfer_keeps (st : Store)
    (id sv color size owner appraisedValue newOwner : String)
    (fs : List (String × JVal))
    (hget : getState st id = some sv)
    (hparse : jsonParse sv = some (.jobj fs))
    (hdoc : "docType" ∈ fieldKeys fs) :
    (getState (UpdateAsset st id color size owner appraisedValue).1 id =
        some (encode (assetRecord id color (.jstr size) owner (.jstr appraisedValue))) ∧
      fieldKeys (assetFields id color (.jstr size) owner (.jstr appraisedValue)) =
        ["ID", "Color", "Size", "Owner", "AppraisedValue"] ∧
      "docType" ∉ fieldKeys (assetFields id color (.jstr size) owner
        (.jstr appraisedValue))) ∧
    (getState (TransferAsset st id newOwner).1 id =
        some (encode (.jobj (setField fs "Owner" (.jstr newOwner)))) ∧
      "docType" ∈ fieldKeys (setField fs "Owner" (.jstr newOwner))) := by
  have hex : AssetExists st id = true := assetExists_of_parse hget hparse
  have hk : fieldKeys (assetFields id color (.jstr size) owner (.jstr appraisedValue)) =
      ["ID", "Color", "Size", "Owner", "AppraisedValue"] := rfl
  refine ⟨⟨?_, hk, by rw [hk]; decide⟩, ?_, ?_⟩
  · rw [updateAsset_eq color size owner appraisedValue hex]
    exact getState_putState_self st id _
  · rw [transferAsset_eq newOwner hget hparse]
    exact getState_putState_self st id _
  · exact mem_fieldKeys_setField "Owner" (.jstr newOwner) hdoc

/-- Witness for C10 on `asset1` of the freshly initialized ledger: update
drops `docType`, transfer keeps it. -/
theorem update_removes_docType_transfer_keeps_witness :
    getState (UpdateAsset (InitLedger []) "asset1" "red" "7" "Brad" "900").1 "asset1" =
      some (encode (assetRecord "asset1" "red" (.jstr "7") "Brad" (.jstr "900"))) ∧
    "docType" ∉ fieldKeys (assetFields "asset1" "red" (.jstr "7") "Brad" (.jstr "900")) ∧
    getState (TransferAsset (InitLedger []) "asset1" "Carol").1 "asset1" =
      some (encode (.jobj (setField
        [("AppraisedValue", .jnum 300), ("Color", .jstr "blue"),
         ("ID", .jstr "asset1"), ("Owner", .jstr "Tomoko"), ("Size", .jnum 5),
         ("docType", .jstr "asset")] "Owner" (.jstr "Carol")))) ∧
    "docType" ∈ fieldKeys (setField
        [("AppraisedValue", .jnum 300), ("Color", .jstr "blue"),
         ("ID", .jstr "asset1"), ("Owner", .jstr "Tomoko"), ("Size", .jnum 5),
         ("docType", .jstr "asset")] "Owner" (.jstr "Carol")) :=
  have h := update_removes_docType_transfer_keeps (InitLedger [])
    "asset1" (encode (.jobj [("ID", .jstr "asset1"), ("Color", .jstr "blue"),
      ("Size", .jnum 5), ("Owner", .jstr "Tomoko"),
      ("AppraisedValue", .jnum 300), ("docType", .jstr "asset")]))
    "red" "7" "Brad" "900" "Carol"
    [("AppraisedValue", .jnum 300), ("Color", .jstr "blue"),
     ("ID", .jstr "asset1"), ("Owner", .jstr "Tomoko"), ("Size", .jnum 5),
     ("docType", .jstr "asset")] rfl rfl (by decide)
  ⟨h.1.1, h.1.2.2, h.2.1, h.2.2⟩
